import Mathlib

/-!
Verification of the real-time audio capture / streaming-transcription core of
the meeting-minutes repository (frontend/src-tauri/src/lib.rs and utils.rs).

Embedding conventions:
* `f32`/`f64` sample values, times and durations are modelled as `ℚ`
  (exact arithmetic); instants are rational milliseconds.
* Rust `String`/`&str` text that undergoes `replace`/`trim`/`ends_with`
  processing is modelled as `List Char`; other strings stay `String`.
* The global atomics (`SEQUENCE_COUNTER`, `ACTIVE_WORKERS`, ...) become
  explicit state threaded through the functions.
* `DefaultHasher` 64-bit hashes of `(text, t0.to_bits, t1.to_bits, chunk_id)`
  are modelled by the hashed tuple itself (hash collisions and the sentinel
  initial value 0 are abstracted away; bit-pattern equality of finite floats
  coincides with value equality for the inputs considered).
* Fallible operations return `Except`/`Option`.
-/

/-- Whitespace test used by the model of Rust's `str::trim`; the texts
processed by the program only involve ASCII whitespace. -/
def isWS (c : Char) : Bool :=
  c = ' ' ∨ c = '\t' ∨ c = '\n' ∨ c = '\r'

/-- Model of `str::trim`: remove leading and trailing whitespace. -/
def trimChars (s : List Char) : List Char :=
  ((s.dropWhile isWS).reverse.dropWhile isWS).reverse

/-- Does `s` start with the pattern `p`? (model of `str::starts_with`). -/
def startsWithPat : List Char → List Char → Bool
  | [], _ => true
  | _ :: _, [] => false
  | p :: ps, c :: cs => p = c && startsWithPat ps cs

/-- Does `s` end with the pattern `p`? (model of `str::ends_with`). -/
def endsWithPat (s p : List Char) : Bool :=
  startsWithPat p.reverse s.reverse

/-- Substring test (model of `str::contains`). -/
def containsSub (needle : List Char) : List Char → Bool
  | [] => needle.isEmpty
  | c :: t => startsWithPat needle (c :: t) || containsSub needle t

/-- Fuelled worker for `removeOcc` (the fuel is the length of the string,
which bounds the number of iterations of Rust's `str::replace` scan). -/
def removeOccAux (pat : List Char) : ℕ → List Char → List Char
  | 0, s => s
  | fuel + 1, s =>
    if s = [] then []
    else if startsWithPat pat s ∧ pat ≠ [] then
      removeOccAux pat fuel (s.drop pat.length)
    else
      match s with
      | [] => []
      | c :: t => c :: removeOccAux pat fuel t

/-- Model of `str::replace(pat, "")`: remove every (leftmost, non-overlapping)
occurrence of `pat`. -/
def removeOcc (pat s : List Char) : List Char :=
  removeOccAux pat s.length s

/-- The text cleanup in `TranscriptAccumulator::add_segment`: remove the
literal markers `[BLANK_AUDIO]` and `[AUDIO OUT]`, then trim. -/
def cleanSegText (text : List Char) : List Char :=
  trimChars (removeOcc "[AUDIO OUT]".toList (removeOcc "[BLANK_AUDIO]".toList text))

/-- Zero-padded two-digit rendering, model of the `{:02}` format. -/
def pad2 (n : ℕ) : String :=
  if n < 10 then "0" ++ toString n else toString n

/-- Model of `utils::format_timestamp`: `seconds as u64` truncates toward zero and
saturates at 0 for negative values, which on `ℚ` is `Int.toNat ∘ Int.floor`
composed with clamping (all call sites pass non-negative values). -/
def format_timestamp (seconds : ℚ) : String :=
  let total_seconds : ℕ := (max seconds 0).floor.toNat
  let hours := total_seconds / 3600
  let minutes := (total_seconds % 3600) / 60
  let secs := total_seconds % 60
  pad2 hours ++ ":" ++ pad2 minutes ++ ":" ++ pad2 secs

/-- Model of `resample_audio` from lib.rs: nearest-neighbor resampling.  The `f32`
index arithmetic of the source is embedded exactly over `ℚ`
(`as usize` on the non-negative intermediate values is `Nat.floor`). -/
def resample_audio (samples : List ℚ) (from_rate to_rate : ℕ) : List ℚ :=
  if from_rate = to_rate then samples
  else
    let ratio : ℚ := (to_rate : ℚ) / (from_rate : ℚ)
    let new_len : ℕ := ⌊(samples.length : ℚ) * ratio⌋₊
    (List.range new_len).filterMap fun (i : ℕ) =>
      let src_idx : ℕ := ⌊(i : ℚ) / ratio⌋₊
      if src_idx < samples.length then some (samples.getD src_idx 0) else none

theorem filterMap_eq_map_of_forall {α β : Type} (l : List α) (f : α → Option β)
    (g : α → β) (h : ∀ a ∈ l, f a = some (g a)) : l.filterMap f = l.map g := by
  induction l with
  | nil => rfl
  | cons a t ih =>
    simp only [List.filterMap_cons, h a (List.mem_cons_self a t), List.map_cons]
    exact congrArg _ (ih fun b hb => h b (List.mem_cons_of_mem a hb))

theorem new_len_eq (N to_rate from_rate : ℕ) (hf : 0 < from_rate) :
    ⌊(N : ℚ) * ((to_rate : ℚ) / (from_rate : ℚ))⌋₊ = N * to_rate / from_rate := by
  rw [mul_div_assoc']
  rw [show ((N : ℚ) * to_rate) = ((N * to_rate : ℕ) : ℚ) by push_cast; ring]
  exact Nat.floor_div_eq_div _ _

theorem src_idx_eq (i to_rate from_rate : ℕ) (hf : 0 < from_rate) (ht : 0 < to_rate) :
    ⌊(i : ℚ) / ((to_rate : ℚ) / (from_rate : ℚ))⌋₊ = i * from_rate / to_rate := by
  rw [div_div_eq_mul_div]
  rw [show ((i : ℚ) * from_rate) = ((i * from_rate : ℕ) : ℚ) by push_cast; ring]
  exact Nat.floor_div_eq_div _ _

theorem src_idx_lt (i N to_rate from_rate : ℕ) (hf : 0 < from_rate) (ht : 0 < to_rate)
    (hi : i < N * to_rate / from_rate) : i * from_rate / to_rate < N := by
  rw [Nat.div_lt_iff_lt_mul ht]
  have h1 : (i + 1) * from_rate ≤ N * to_rate :=
    (Nat.le_div_iff_mul_le hf).mp hi
  calc i * from_rate < (i + 1) * from_rate := by nlinarith
    _ ≤ N * to_rate := h1

/-- The resampled output, for positive rates with `from_rate ≠ to_rate`,
is exactly the map of the nearest-neighbour index over the output range. -/
theorem resample_audio_eq_map (samples : List ℚ) (from_rate to_rate : ℕ)
    (hne : from_rate ≠ to_rate) (hf : 0 < from_rate) (ht : 0 < to_rate) :
    resample_audio samples from_rate to_rate =
      (List.range (samples.length * to_rate / from_rate)).map
        (fun i => samples.getD (i * from_rate / to_rate) 0) := by
  simp only [resample_audio, if_neg hne]
  rw [new_len_eq samples.length to_rate from_rate hf]
  apply filterMap_eq_map_of_forall
  intro i hi
  rw [List.mem_range] at hi
  rw [src_idx_eq i to_rate from_rate hf ht]
  rw [if_pos (src_idx_lt i samples.length to_rate from_rate hf ht hi)]

/-- C6: for every source rate R in {8000, 16000, 44100, 48000} and every
input vector, `resample_audio input R 16000` has length ⌊N·16000/R⌋ and its
i-th element is `input[⌊i·R/16000⌋]` (nearest neighbour with ratio 16000/R).
-/
theorem resample_audio_spec (R : ℕ) (hR : R = 8000 ∨ R = 16000 ∨ R = 44100 ∨ R = 48000)
    (samples : List ℚ) :
    (resample_audio samples R 16000).length = samples.length * 16000 / R ∧
    ∀ i, i < (resample_audio samples R 16000).length →
      (resample_audio samples R 16000).getD i 0 = samples.getD (i * R / 16000) 0 := by
  by_cases h : R = 16000
  · subst h
    unfold resample_audio
    rw [if_pos rfl]
    constructor
    · omega
    · intro i hi
      congr 1
      omega
  · have hf : 0 < R := by rcases hR with h1 | h1 | h1 | h1 <;> omega
    rw [resample_audio_eq_map samples R 16000 h hf (by norm_num)]
    constructor
    · simp
    · intro i hi
      simp only [List.length_map, List.length_range] at hi
      rw [List.getD_eq_getElem _ _ (by simpa using hi)]
      simp

/-- Witness for C6 at `R = 44100` and a concrete 5-element input. -/
theorem resample_audio_spec_witness :
    (resample_audio [1, 2, 3, 4, 5] 44100 16000).length = 5 * 16000 / 44100 ∧
    ∀ i, i < (resample_audio [1, 2, 3, 4, 5] 44100 16000).length →
      (resample_audio [1, 2, 3, 4, 5] 44100 16000).getD i 0 =
        [1, 2, 3, 4, 5].getD (i * 44100 / 16000) 0 :=
  resample_audio_spec 44100 (by norm_num) [1, 2, 3, 4, 5]

/-! ## Sentence accumulator (`TranscriptAccumulator`, lib.rs 104-253) -/

/-- Struct `TranscriptSegment` from lib.rs (`text` as `List Char`, times as `ℚ`). -/
structure TranscriptSegment where
  text : List Char
  t0 : ℚ
  t1 : ℚ
deriving DecidableEq

/-- Struct `TranscriptUpdate` from lib.rs. -/
structure TranscriptUpdate where
  text : List Char
  timestamp : String
  source : String
  sequence_id : ℕ
  chunk_start_time : ℚ
  isPartial : Bool
deriving DecidableEq

/-- The `TranscriptAccumulator` state.  `last_segment_hash` holds the tuple the
code hashes (none models the initial sentinel 0); instants are rational
milliseconds. -/
structure TranscriptAccumulator where
  current_sentence : List Char
  sentence_start_time : ℚ
  last_update_time : ℚ
  last_segment_hash : Option (List Char × ℚ × ℚ × ℕ)
  current_chunk_id : ℕ
  current_chunk_start_time : ℚ
  recording_start_time : Option ℚ
deriving DecidableEq

/-- Model of `TranscriptAccumulator::new()`; `now` is the creation instant. -/
def accumulator_new (now : ℚ) : TranscriptAccumulator :=
  { current_sentence := []
    sentence_start_time := 0
    last_update_time := now
    last_segment_hash := none
    current_chunk_id := 0
    current_chunk_start_time := 0
    recording_start_time := none }

/-- Model of `TranscriptAccumulator::set_chunk_context`. -/
def set_chunk_context (acc : TranscriptAccumulator) (chunk_id : ℕ)
    (chunk_start_time recording_start_time : ℚ) : TranscriptAccumulator :=
  { acc with
    current_chunk_id := chunk_id
    current_chunk_start_time := chunk_start_time
    recording_start_time := some recording_start_time }

/-- The tuple fed to `DefaultHasher` in `add_segment`: raw text, the bit
patterns of `t0` and `t1` (bit equality = value equality on the finite
values considered), and the current chunk id. -/
def segment_hash (seg : TranscriptSegment) (chunk_id : ℕ) :
    List Char × ℚ × ℚ × ℕ :=
  (seg.text, seg.t0, seg.t1, chunk_id)

/-- The sentence-ending test of `add_segment` (lib.rs 186-187). -/
def has_sentence_ending (clean_text : List Char) : Bool :=
  endsWithPat clean_text ['.'] || endsWithPat clean_text ['?'] ||
  endsWithPat clean_text ['!'] || endsWithPat clean_text ['.', '.', '.'] ||
  endsWithPat clean_text ['.', '"'] || endsWithPat clean_text ['.', '\'']

/-- The sentence grown by `add_segment`: a separator space is inserted when
the current sentence is non-empty and does not already end in a space. -/
def append_clean (current : List Char) (clean_text : List Char) : List Char :=
  (if current ≠ [] ∧ ¬ endsWithPat current [' '] = true
    then current ++ [' '] else current) ++ clean_text

/-- Model of `TranscriptAccumulator::add_segment` (lib.rs 136-219).  The global
`SEQUENCE_COUNTER` is threaded as `seq`; `now` is `Instant::now()` in ms.
The sequential field mutations of the source are composed into one record
update per branch; emission returns `some update`. -/
def add_segment (acc : TranscriptAccumulator) (seg : TranscriptSegment)
    (now : ℚ) (seq : ℕ) : TranscriptAccumulator × ℕ × Option TranscriptUpdate :=
  let clean_text := cleanSegText seg.text
  if clean_text = [] ∨ seg.t1 - seg.t0 < 1 then
    ({ acc with last_update_time := now }, seq, none)
  else if some (segment_hash seg acc.current_chunk_id) = acc.last_segment_hash then
    ({ acc with last_update_time := now }, seq, none)
  else
    let sst := if acc.current_sentence = [] then seg.t0 else acc.sentence_start_time
    let sentence' := append_clean acc.current_sentence clean_text
    if has_sentence_ending clean_text then
      ({ acc with
          last_update_time := now
          last_segment_hash := some (segment_hash seg acc.current_chunk_id)
          sentence_start_time := sst
          current_sentence := [] },
       seq + 1,
       some { text := trimChars sentence'
              timestamp := format_timestamp (max (acc.current_chunk_start_time + sst / 1000) 0)
              source := "Mixed Audio"
              sequence_id := seq
              chunk_start_time := acc.current_chunk_start_time
              isPartial := false })
    else
      ({ acc with
          last_update_time := now
          last_segment_hash := some (segment_hash seg acc.current_chunk_id)
          sentence_start_time := sst
          current_sentence := sentence' },
       seq, none)

/-- Model of `TranscriptAccumulator::check_timeout` (lib.rs 221-252);
`SENTENCE_TIMEOUT_MS = 1000`.  Note it does not touch `last_update_time`. -/
def check_timeout (acc : TranscriptAccumulator) (now : ℚ) (seq : ℕ) :
    TranscriptAccumulator × ℕ × Option TranscriptUpdate :=
  if acc.current_sentence ≠ [] ∧ now - acc.last_update_time > 1000 then
    ({ acc with current_sentence := [] },
     seq + 1,
     some { text := trimChars acc.current_sentence
            timestamp := format_timestamp
              (max (acc.current_chunk_start_time + acc.sentence_start_time / 1000) 0)
            source := "Mixed Audio"
            sequence_id := seq
            chunk_start_time := acc.current_chunk_start_time
            isPartial := true })
  else (acc, seq, none)

/-- Unfolding of `add_segment` in the flush branch, for a segment that
passes the emptiness, duration and duplicate filters and whose cleaned
text has a sentence ending. -/
theorem add_segment_flush_eq (acc : TranscriptAccumulator) (seg : TranscriptSegment)
    (now : ℚ) (seq : ℕ)
    (h1 : cleanSegText seg.text ≠ [])
    (h2 : 1 ≤ seg.t1 - seg.t0)
    (h3 : some (segment_hash seg acc.current_chunk_id) ≠ acc.last_segment_hash)
    (h4 : has_sentence_ending (cleanSegText seg.text) = true) :
    add_segment acc seg now seq =
      ({ acc with
          last_update_time := now
          last_segment_hash := some (segment_hash seg acc.current_chunk_id)
          sentence_start_time :=
            if acc.current_sentence = [] then seg.t0 else acc.sentence_start_time
          current_sentence := [] },
       seq + 1,
       some { text := trimChars (append_clean acc.current_sentence (cleanSegText seg.text))
              timestamp := format_timestamp
                (max (acc.current_chunk_start_time +
                  (if acc.current_sentence = [] then seg.t0 else acc.sentence_start_time) / 1000) 0)
              source := "Mixed Audio"
              sequence_id := seq
              chunk_start_time := acc.current_chunk_start_time
              isPartial := false }) := by
  unfold add_segment
  rw [if_neg (by push_neg; exact ⟨h1, by linarith⟩)]
  rw [if_neg h3]
  rw [if_pos h4]

/-- Unfolding of `add_segment` in the append branch (filters passed, no
sentence ending). -/
theorem add_segment_append_eq (acc : TranscriptAccumulator) (seg : TranscriptSegment)
    (now : ℚ) (seq : ℕ)
    (h1 : cleanSegText seg.text ≠ [])
    (h2 : 1 ≤ seg.t1 - seg.t0)
    (h3 : some (segment_hash seg acc.current_chunk_id) ≠ acc.last_segment_hash)
    (h4 : has_sentence_ending (cleanSegText seg.text) = false) :
    add_segment acc seg now seq =
      ({ acc with
          last_update_time := now
          last_segment_hash := some (segment_hash seg acc.current_chunk_id)
          sentence_start_time :=
            if acc.current_sentence = [] then seg.t0 else acc.sentence_start_time
          current_sentence := append_clean acc.current_sentence (cleanSegText seg.text) },
       seq, none) := by
  unfold add_segment
  rw [if_neg (by push_neg; exact ⟨h1, by linarith⟩)]
  rw [if_neg h3]
  rw [if_neg (by simp [h4])]

/-- Unfolding of `add_segment` when the segment hash equals the stored one:
the call is a no-op apart from `last_update_time`. -/
theorem add_segment_dup_eq (acc : TranscriptAccumulator) (seg : TranscriptSegment)
    (now : ℚ) (seq : ℕ)
    (h3 : some (segment_hash seg acc.current_chunk_id) = acc.last_segment_hash) :
    add_segment acc seg now seq = ({ acc with last_update_time := now }, seq, none) := by
  unfold add_segment
  by_cases h : cleanSegText seg.text = [] ∨ seg.t1 - seg.t0 < 1
  · rw [if_pos h]
  · rw [if_neg h, if_pos h3]

/-- C7: a segment surviving the emptiness/duration/duplicate filters whose
cleaned text ends in one of the six sentence endings makes `add_segment`
return an update with `isPartial = false` carrying the accumulated sentence;
in particular a fresh accumulator fed the raw text
`"[BLANK_AUDIO] Hello [AUDIO OUT] world."` (duration ≥ 1) yields exactly one
update with text `"Hello  world."` and `isPartial = false`. -/
theorem add_segment_terminal_flush :
    (∀ (acc : TranscriptAccumulator) (seg : TranscriptSegment) (now : ℚ) (seq : ℕ),
      cleanSegText seg.text ≠ [] →
      1 ≤ seg.t1 - seg.t0 →
      some (segment_hash seg acc.current_chunk_id) ≠ acc.last_segment_hash →
      has_sentence_ending (cleanSegText seg.text) = true →
      ∃ u, (add_segment acc seg now seq).2.2 = some u ∧
        u.isPartial = false ∧
        u.text = trimChars (append_clean acc.current_sentence (cleanSegText seg.text))) ∧
    (add_segment (accumulator_new 0)
        { text := "[BLANK_AUDIO] Hello [AUDIO OUT] world.".toList, t0 := 0, t1 := 3/2 }
        0 0).2.2 =
      some { text := "Hello  world.".toList, timestamp := "00:00:00",
             source := "Mixed Audio", sequence_id := 0, chunk_start_time := 0,
             isPartial := false } := by
  constructor
  · intro acc seg now seq h1 h2 h3 h4
    rw [add_segment_flush_eq acc seg now seq h1 h2 h3 h4]
    exact ⟨_, rfl, rfl, rfl⟩
  · with_unfolding_all decide

/-- Witness for the universally quantified part of
`add_segment_terminal_flush` at a concrete non-empty accumulator. -/
theorem add_segment_terminal_flush_witness :
    ∃ u, (add_segment
        { current_sentence := "He said".toList, sentence_start_time := 2,
          last_update_time := 0, last_segment_hash := none,
          current_chunk_id := 3, current_chunk_start_time := 30,
          recording_start_time := some 0 }
        { text := "Hi.".toList, t0 := 4, t1 := 6 } 50 7).2.2 = some u ∧
      u.isPartial = false ∧
      u.text = trimChars (append_clean "He said".toList (cleanSegText "Hi.".toList)) :=
  add_segment_terminal_flush.1 _ _ _ _ (by with_unfolding_all decide)
    (by norm_num) (by with_unfolding_all decide) (by with_unfolding_all decide)

/-- Appending a non-empty cleaned text strictly grows the sentence. -/
theorem append_clean_ne (s clean : List Char) (h : clean ≠ []) :
    append_clean s clean ≠ s := by
  intro hcontra
  have hlen := congrArg List.length hcontra
  simp only [append_clean] at hlen
  by_cases hif : s ≠ [] ∧ ¬ endsWithPat s [' '] = true
  · rw [if_pos hif] at hlen
    simp [List.length_append] at hlen
  · rw [if_neg hif] at hlen
    simp [List.length_append] at hlen
    exact h hlen

/-- C8: duplicate suppression is chunk-scoped idempotence.  A second
`add_segment` call with the identical segment under the same chunk context
hashes to the stored `last_segment_hash`, returns `none` and only refreshes
`last_update_time`; after `set_chunk_context` with a different chunk id the
same segment is not treated as a duplicate (it is appended or flushed). -/
theorem add_segment_dedup (acc : TranscriptAccumulator) (seg : TranscriptSegment)
    (now₁ now₂ : ℚ) (seq : ℕ)
    (h1 : cleanSegText seg.text ≠ [])
    (h2 : 1 ≤ seg.t1 - seg.t0)
    (h3 : some (segment_hash seg acc.current_chunk_id) ≠ acc.last_segment_hash) :
    (add_segment (add_segment acc seg now₁ seq).1 seg now₂ (add_segment acc seg now₁ seq).2.1 =
      ({ (add_segment acc seg now₁ seq).1 with last_update_time := now₂ },
       (add_segment acc seg now₁ seq).2.1, none)) ∧
    ∀ (cid : ℕ) (cst rst now₃ : ℚ) (seq₃ : ℕ), cid ≠ acc.current_chunk_id →
      (add_segment (set_chunk_context (add_segment acc seg now₁ seq).1 cid cst rst)
          seg now₃ seq₃).2.2 ≠ none ∨
      (add_segment (set_chunk_context (add_segment acc seg now₁ seq).1 cid cst rst)
          seg now₃ seq₃).1.current_sentence ≠
        (set_chunk_context (add_segment acc seg now₁ seq).1 cid cst rst).current_sentence := by
  have hhash : (add_segment acc seg now₁ seq).1.last_segment_hash =
      some (segment_hash seg acc.current_chunk_id) := by
    by_cases h4 : has_sentence_ending (cleanSegText seg.text) = true
    · rw [add_segment_flush_eq acc seg now₁ seq h1 h2 h3 h4]
    · rw [add_segment_append_eq acc seg now₁ seq h1 h2 h3 (by simpa using h4)]
  have hcid : (add_segment acc seg now₁ seq).1.current_chunk_id = acc.current_chunk_id := by
    by_cases h4 : has_sentence_ending (cleanSegText seg.text) = true
    · rw [add_segment_flush_eq acc seg now₁ seq h1 h2 h3 h4]
    · rw [add_segment_append_eq acc seg now₁ seq h1 h2 h3 (by simpa using h4)]
  constructor
  · exact add_segment_dup_eq _ _ _ _ (by rw [hhash, hcid])
  · intro cid cst rst now₃ seq₃ hne
    have hctx : (set_chunk_context (add_segment acc seg now₁ seq).1 cid cst rst).current_chunk_id
        = cid := rfl
    have hctxh : (set_chunk_context (add_segment acc seg now₁ seq).1 cid cst rst).last_segment_hash
        = some (segment_hash seg acc.current_chunk_id) := hhash
    have h3' : some (segment_hash seg cid) ≠
        (set_chunk_context (add_segment acc seg now₁ seq).1 cid cst rst).last_segment_hash := by
      rw [hctxh]
      intro hcontra
      exact hne (congrArg (fun t => t.2.2.2) (Option.some_injective _ hcontra))
    by_cases h4 : has_sentence_ending (cleanSegText seg.text) = true
    · left
      rw [add_segment_flush_eq _ seg now₃ seq₃ h1 h2 (by simpa [hctx] using h3') h4]
      simp
    · right
      rw [add_segment_append_eq _ seg now₃ seq₃ h1 h2 (by simpa [hctx] using h3')
        (by simpa using h4)]
      exact append_clean_ne _ _ h1

/-- Witness for `add_segment_dedup` at a concrete segment without a
sentence ending. -/
theorem add_segment_dedup_witness :
    (add_segment (add_segment (accumulator_new 0)
        { text := "Hello world".toList, t0 := 0, t1 := 2 } 1 2).1
        { text := "Hello world".toList, t0 := 0, t1 := 2 } 3
        (add_segment (accumulator_new 0)
          { text := "Hello world".toList, t0 := 0, t1 := 2 } 1 2).2.1 =
      ({ (add_segment (accumulator_new 0)
            { text := "Hello world".toList, t0 := 0, t1 := 2 } 1 2).1 with
          last_update_time := 3 },
       (add_segment (accumulator_new 0)
          { text := "Hello world".toList, t0 := 0, t1 := 2 } 1 2).2.1, none)) ∧
    ∀ (cid : ℕ) (cst rst now₃ : ℚ) (seq₃ : ℕ),
      cid ≠ (accumulator_new 0).current_chunk_id →
      (add_segment (set_chunk_context (add_segment (accumulator_new 0)
            { text := "Hello world".toList, t0 := 0, t1 := 2 } 1 2).1 cid cst rst)
          { text := "Hello world".toList, t0 := 0, t1 := 2 } now₃ seq₃).2.2 ≠ none ∨
      (add_segment (set_chunk_context (add_segment (accumulator_new 0)
            { text := "Hello world".toList, t0 := 0, t1 := 2 } 1 2).1 cid cst rst)
          { text := "Hello world".toList, t0 := 0, t1 := 2 } now₃ seq₃).1.current_sentence ≠
        (set_chunk_context (add_segment (accumulator_new 0)
            { text := "Hello world".toList, t0 := 0, t1 := 2 } 1 2).1
          cid cst rst).current_sentence :=
  add_segment_dedup (accumulator_new 0) { text := "Hello world".toList, t0 := 0, t1 := 2 }
    1 3 2 (by with_unfolding_all decide) (by norm_num) (by with_unfolding_all decide)

/-- C9: with a non-empty current sentence and strictly more than 1000 ms
since the last update, `check_timeout` emits exactly one update with
`isPartial = true` carrying the accumulated sentence and clears the
sentence, so an immediately following `check_timeout` returns `none`. -/
theorem check_timeout_spec (acc : TranscriptAccumulator) (now : ℚ) (seq : ℕ)
    (h1 : acc.current_sentence ≠ [])
    (h2 : now - acc.last_update_time > 1000) :
    (check_timeout acc now seq =
      ({ acc with current_sentence := [] },
       seq + 1,
       some { text := trimChars acc.current_sentence
              timestamp := format_timestamp
                (max (acc.current_chunk_start_time + acc.sentence_start_time / 1000) 0)
              source := "Mixed Audio"
              sequence_id := seq
              chunk_start_time := acc.current_chunk_start_time
              isPartial := true })) ∧
    ∀ (now' : ℚ) (seq' : ℕ),
      check_timeout { acc with current_sentence := [] } now' seq' =
        ({ acc with current_sentence := [] }, seq', none) := by
  constructor
  · unfold check_timeout
    rw [if_pos ⟨h1, h2⟩]
  · intro now' seq'
    unfold check_timeout
    rw [if_neg (by simp)]

/-- A concrete accumulator state with a pending sentence, used by the
`check_timeout_spec` witness. -/
def timeoutAcc : TranscriptAccumulator :=
  { current_sentence := "Hello".toList
    sentence_start_time := 2
    last_update_time := 0
    last_segment_hash := none
    current_chunk_id := 1
    current_chunk_start_time := 30
    recording_start_time := some 0 }

/-- Witness for `check_timeout_spec` at a concrete accumulator. -/
theorem check_timeout_spec_witness :
    (check_timeout timeoutAcc 2000 5 =
      ({ timeoutAcc with current_sentence := [] },
       6,
       some { text := trimChars timeoutAcc.current_sentence
              timestamp := format_timestamp
                (max (timeoutAcc.current_chunk_start_time +
                  timeoutAcc.sentence_start_time / 1000) 0)
              source := "Mixed Audio"
              sequence_id := 5
              chunk_start_time := timeoutAcc.current_chunk_start_time
              isPartial := true })) ∧
    ∀ (now' : ℚ) (seq' : ℕ),
      check_timeout { timeoutAcc with current_sentence := [] } now' seq' =
        ({ timeoutAcc with current_sentence := [] }, seq', none) :=
  check_timeout_spec timeoutAcc 2000 5 (by with_unfolding_all decide)
    (by with_unfolding_all decide)

/-- C2 (amended): the update flushed on terminal punctuation for a sentence
whose first segment starts at `t0` within a chunk beginning `chunkStart`
seconds into the recording carries
`timestamp = format_timestamp (max (chunkStart + t0 / 1000) 0)`:
the code divides the sentence start time by 1000 before adding the chunk
start (lib.rs 196), it does not use `chunkStart + t0` directly. -/
theorem add_segment_timestamp (acc : TranscriptAccumulator) (seg : TranscriptSegment)
    (now : ℚ) (seq : ℕ)
    (hemp : acc.current_sentence = [])
    (h1 : cleanSegText seg.text ≠ [])
    (h2 : 1 ≤ seg.t1 - seg.t0)
    (h3 : some (segment_hash seg acc.current_chunk_id) ≠ acc.last_segment_hash)
    (h4 : has_sentence_ending (cleanSegText seg.text) = true) :
    ∃ u, (add_segment acc seg now seq).2.2 = some u ∧
      u.timestamp =
        format_timestamp (max (acc.current_chunk_start_time + seg.t0 / 1000) 0) := by
  rw [add_segment_flush_eq acc seg now seq h1 h2 h3 h4]
  refine ⟨_, rfl, ?_⟩
  rw [if_pos hemp]

/-- Counterexample for C2 as stated: a sentence flushed at `t0 = 5`,
`chunkStart = 0` carries timestamp `"00:00:00"` (the code computes
`chunkStart + t0/1000`), not `format_timestamp (chunkStart + t0) =
"00:00:05"` as the claim requires with `t0` taken in seconds. -/
theorem add_segment_timestamp_cex :
    ((add_segment (set_chunk_context (accumulator_new 0) 0 0 0)
        { text := "Hello.".toList, t0 := 5, t1 := 7 } 0 0).2.2.map
      TranscriptUpdate.timestamp) = some "00:00:00" ∧
    format_timestamp ((0 : ℚ) + 5) = "00:00:05" ∧
    ("00:00:00" : String) ≠ "00:00:05" := by
  refine ⟨?_, ?_, ?_⟩ <;> with_unfolding_all decide

/-- Witness for `add_segment_timestamp` at a concrete input. -/
theorem add_segment_timestamp_witness :
    ∃ u, (add_segment (set_chunk_context (accumulator_new 0) 2 30 0)
        { text := "Hi.".toList, t0 := 5, t1 := 7 } 0 0).2.2 = some u ∧
      u.timestamp = format_timestamp (max ((30 : ℚ) + 5 / 1000) 0) :=
  add_segment_timestamp (set_chunk_context (accumulator_new 0) 2 30 0)
    { text := "Hi.".toList, t0 := 5, t1 := 7 } 0 0
    (by with_unfolding_all decide) (by with_unfolding_all decide) (by norm_num)
    (by with_unfolding_all decide) (by with_unfolding_all decide)

/-! ## HTTP retry loop (`send_audio_chunk`, lib.rs 371-426) -/

/-- Struct `TranscriptResponse` from lib.rs. -/
structure TranscriptResponse where
  segments : List TranscriptSegment
  buffer_size_ms : ℤ
deriving DecidableEq

/-- Outcome of one HTTP POST attempt: the send succeeds and the JSON
parses, the send fails, or the JSON parse fails. -/
inductive AttemptResult where
  | success (r : TranscriptResponse)
  | sendErr (e : String)
  | parseErr (e : String)

/-- Is this attempt outcome an error (send or parse)? -/
def is_attempt_error : AttemptResult → Bool
  | AttemptResult.success _ => false
  | AttemptResult.sendErr _ => true
  | AttemptResult.parseErr _ => true

/-- The retry loop of `send_audio_chunk`: `while retry_count <= max_retries`
with `max_retries = 3`; before each attempt with `retry_count > 0` it sleeps
`100 * 2 ^ retry_count` ms.  The fuel is `4 - retry_count`, encoding the
loop guard.  Returns the result, the number of POST attempts actually made,
and the list of back-off delays slept (in ms). -/
def send_audio_chunk_loop (attempt : ℕ → AttemptResult) :
    ℕ → ℕ → String → Except String TranscriptResponse × ℕ × List ℕ
  | 0, _, lastErr =>
    (Except.error ("Failed after 3 retries. Last error: " ++ lastErr), 0, [])
  | fuel + 1, rc, lastErr =>
    let delays := if 0 < rc then [100 * 2 ^ rc] else []
    match attempt rc with
    | AttemptResult.success r => (Except.ok r, 1, delays)
    | AttemptResult.sendErr e =>
      let rest := send_audio_chunk_loop attempt fuel (rc + 1) e
      (rest.1, rest.2.1 + 1, delays ++ rest.2.2)
    | AttemptResult.parseErr e =>
      let rest := send_audio_chunk_loop attempt fuel (rc + 1) e
      (rest.1, rest.2.1 + 1, delays ++ rest.2.2)

/-- Model of `send_audio_chunk`, abstracted over the per-attempt network outcome.
The byte conversion of the samples does not affect the retry behaviour and
is omitted here. -/
def send_audio_chunk (attempt : ℕ → AttemptResult) :
    Except String TranscriptResponse × ℕ × List ℕ :=
  send_audio_chunk_loop attempt 4 0 ""

/-- Counterexample for C1 as stated: with every attempt failing, the code
makes 4 POST attempts for the chunk (1 initial + 3 retries), not at most 3;
the back-off delays are 200/400/800 ms and the final result is a failure. -/
theorem send_audio_chunk_cex :
    (send_audio_chunk fun _ => AttemptResult.sendErr "connection refused").2.1 = 4 ∧
    ¬ (send_audio_chunk fun _ => AttemptResult.sendErr "connection refused").2.1 ≤ 3 ∧
    (send_audio_chunk fun _ => AttemptResult.sendErr "connection refused").2.2 =
      [200, 400, 800] ∧
    (send_audio_chunk fun _ => AttemptResult.sendErr "connection refused").1 =
      Except.error "Failed after 3 retries. Last error: connection refused" := by
  exact ⟨by decide, by decide, by decide, by rfl⟩

/-- C1 (amended): `send_audio_chunk` makes up to 4 HTTP POST attempts in
total (1 initial + up to 3 retries); before retry k (k = 1, 2, 3) it sleeps
`100·2^k` ms, so the delays slept are a prefix of [200, 400, 800]; any send
or JSON-parse error is retryable; if all 4 attempts fail the function
returns a failure value. -/
theorem send_audio_chunk_retries (attempt : ℕ → AttemptResult) :
    (send_audio_chunk attempt).2.1 ≤ 4 ∧
    (send_audio_chunk attempt).2.2 =
      [200, 400, 800].take ((send_audio_chunk attempt).2.1 - 1) ∧
    ((∀ k, k < 4 → is_attempt_error (attempt k) = true) →
      (send_audio_chunk attempt).2.1 = 4 ∧
      ∃ e, (send_audio_chunk attempt).1 = Except.error e) := by
  rcases h0 : attempt 0 with r0 | e0 | e0 <;>
  rcases h1 : attempt 1 with r1 | e1 | e1 <;>
  rcases h2 : attempt 2 with r2 | e2 | e2 <;>
  rcases h3 : attempt 3 with r3 | e3 | e3 <;>
  simp_all [send_audio_chunk, send_audio_chunk_loop, is_attempt_error,
    Nat.forall_lt_succ]

/-- Witness for `send_audio_chunk_retries` with every attempt failing. -/
theorem send_audio_chunk_retries_witness :
    (send_audio_chunk fun _ => AttemptResult.parseErr "bad json").2.1 ≤ 4 ∧
    (send_audio_chunk fun _ => AttemptResult.parseErr "bad json").2.2 =
      [200, 400, 800].take
        ((send_audio_chunk fun _ => AttemptResult.parseErr "bad json").2.1 - 1) ∧
    ((∀ k, k < 4 →
        is_attempt_error ((fun _ => AttemptResult.parseErr "bad json") k) = true) →
      (send_audio_chunk fun _ => AttemptResult.parseErr "bad json").2.1 = 4 ∧
      ∃ e, (send_audio_chunk fun _ => AttemptResult.parseErr "bad json").1 =
        Except.error e) :=
  send_audio_chunk_retries fun _ => AttemptResult.parseErr "bad json"

/-! ## Bounded chunk queue with overflow drop (lib.rs 330-356, 691) -/

/-- The overflow `while` loop of the queue push (lib.rs 335-351):
while the queue holds at least `MAX_AUDIO_QUEUE_SIZE = 10` chunks, pop the
oldest, increment the dropped counter, and when the post-increment count is
exactly 1 emit the `chunk-drop-warning` event (recorded here by the dropped
chunk id).  The fuel is the queue length, which bounds the iterations. -/
def overflowDropAux : ℕ → List ℕ → ℕ → List ℕ → List ℕ × ℕ × List ℕ
  | 0, q, dropped, warns => (q, dropped, warns)
  | fuel + 1, q, dropped, warns =>
    if 10 ≤ q.length then
      match q with
      | [] => (q, dropped, warns)
      | c :: t =>
        overflowDropAux fuel t (dropped + 1)
          (if dropped + 1 = 1 then warns ++ [c] else warns)
    else (q, dropped, warns)

/-- One `push` of the chunker onto the bounded queue, with overflow
protection.  State: (queue of chunk ids, `DROPPED_CHUNK_COUNTER`,
emitted chunk-drop warnings). -/
def queue_push (st : List ℕ × ℕ × List ℕ) (c : ℕ) : List ℕ × ℕ × List ℕ :=
  let d := overflowDropAux st.1.length st.1 st.2.1 st.2.2
  (d.1 ++ [c], d.2.1, d.2.2)

/-- Push a list of chunks in order with no intervening pops. -/
def queue_push_all (cs : List ℕ) (st : List ℕ × ℕ × List ℕ) :
    List ℕ × ℕ × List ℕ :=
  cs.foldl queue_push st

theorem overflowDropAux_of_lt (fuel : ℕ) (q : List ℕ) (d : ℕ) (w : List ℕ)
    (h : q.length < 10) : overflowDropAux fuel q d w = (q, d, w) := by
  cases fuel with
  | zero => rfl
  | succ fuel => unfold overflowDropAux; rw [if_neg (by omega)]

theorem overflowDropAux_full (x : ℕ) (t : List ℕ) (d : ℕ) (w : List ℕ)
    (h : t.length = 9) :
    overflowDropAux (x :: t).length (x :: t) d w =
      (t, d + 1, if d + 1 = 1 then w ++ [x] else w) := by
  have hl : (x :: t).length = 9 + 1 := by simp [h]
  rw [hl]
  unfold overflowDropAux
  rw [if_pos (by simp [h])]
  exact overflowDropAux_of_lt 9 t (d + 1) _ (by omega)

/-- Pushing `cs` onto a fresh queue (counter reset at session start) leaves
the last 10 chunks, counts `cs.length - 10` drops, and emits the warning
exactly at the first drop, carrying the first (oldest) chunk. -/
theorem queue_push_all_eq (cs : List ℕ) :
    queue_push_all cs ([], 0, []) =
      (cs.drop (cs.length - 10), cs.length - 10, (cs.take (cs.length - 10)).take 1) := by
  induction cs using List.reverseRecOn with
  | nil => rfl
  | append_singleton cs c ih =>
    unfold queue_push_all at ih ⊢
    rw [List.foldl_append, ih]
    simp only [List.foldl_cons, List.foldl_nil]
    rcases Nat.lt_or_ge cs.length 10 with hlt | hge
    · have h0 : cs.length - 10 = 0 := by omega
      have h0' : (cs ++ [c]).length - 10 = 0 := by simp; omega
      rw [h0, h0']
      simp only [List.drop_zero, List.take_zero, List.take_nil]
      simp only [queue_push]
      rw [overflowDropAux_of_lt _ _ _ _ hlt]
    · have hq : (cs.drop (cs.length - 10)).length = 10 := by
        simp [List.length_drop]; omega
      rcases hd : cs.drop (cs.length - 10) with _ | ⟨x, t⟩
      · rw [hd] at hq; simp at hq
      · have ht : t.length = 9 := by
          rw [hd] at hq; simp at hq; omega
        simp only [queue_push]
        rw [overflowDropAux_full x t _ _ ht]
        have htail : t = cs.drop (cs.length - 10 + 1) := by
          have h1 : (cs.drop (cs.length - 10)).tail = cs.drop (cs.length - 10 + 1) :=
            List.tail_drop cs (cs.length - 10)
          rw [hd] at h1
          simpa using h1
        have hcnt : (cs ++ [c]).length - 10 = (cs.length - 10) + 1 := by
          simp; omega
        rw [hcnt]
        rw [show (cs ++ [c]).drop (cs.length - 10 + 1) = t ++ [c] from by
          rw [List.drop_append_of_le_length (by omega), ← htail]]
        refine Prod.ext rfl (Prod.ext rfl ?_)
        show (if cs.length - 10 + 1 = 1 then
            (cs.take (cs.length - 10)).take 1 ++ [x] else (cs.take (cs.length - 10)).take 1) =
          ((cs ++ [c]).take (cs.length - 10 + 1)).take 1
        rcases Nat.eq_or_lt_of_le hge with h10 | h11
        · have hz : cs.length - 10 = 0 := by omega
          have hcs : cs = x :: t := by
            have h2 := hd
            rw [hz, List.drop_zero] at h2
            exact h2
          rw [hz]
          simp only [List.take_zero, List.take_nil, List.nil_append, if_pos rfl,
            Nat.zero_add]
          rw [List.take_append_of_le_length (by omega), hcs]
          rfl
        · have hge1 : 1 ≤ cs.length - 10 := by omega
          rw [if_neg (by omega)]
          rw [List.take_take, List.take_take]
          have e1 : min 1 (cs.length - 10) = 1 := by omega
          have e2 : min 1 (cs.length - 10 + 1) = 1 := by omega
          rw [e1, e2]
          rw [List.take_append_of_le_length (by omega)]

/-- C5: for the bounded queue of capacity 10, pushing `10 + K` chunks
(`K ≥ 1`) with no intervening pops from a fresh session drops exactly the
`K` oldest chunks (counter = K), retains the last 10 in FIFO order, and
emits the chunk-drop-warning exactly once — at the first drop, carrying the
oldest chunk. -/
theorem queue_drop_policy (K : ℕ) (cs : List ℕ) (hK : 1 ≤ K)
    (hlen : cs.length = 10 + K) :
    queue_push_all cs ([], 0, []) = (cs.drop K, K, (cs.take K).take 1) ∧
    (queue_push_all cs ([], 0, [])).2.2.length = 1 := by
  have heq := queue_push_all_eq cs
  have hK' : cs.length - 10 = K := by omega
  rw [hK'] at heq
  refine ⟨heq, ?_⟩
  rw [heq]
  simp only [List.length_take, List.length_take]
  omega

/-- Witness for `queue_drop_policy` with `K = 1` and 11 concrete chunks. -/
theorem queue_drop_policy_witness :
    queue_push_all [0, 1, 2, 3, 4, 5, 6, 7, 8, 9, 10] ([], 0, []) =
      ([0, 1, 2, 3, 4, 5, 6, 7, 8, 9, 10].drop 1, 1,
       ([0, 1, 2, 3, 4, 5, 6, 7, 8, 9, 10].take 1).take 1) ∧
    (queue_push_all [0, 1, 2, 3, 4, 5, 6, 7, 8, 9, 10] ([], 0, [])).2.2.length = 1 :=
  queue_drop_policy 1 [0, 1, 2, 3, 4, 5, 6, 7, 8, 9, 10] (by norm_num) (by decide)

/-! ## Mixer/chunker (`audio_collection_task`, lib.rs 255-369) -/

/-- One tick's worth of received frames for each source plus whether
`last_chunk_time.elapsed() >= CHUNK_DURATION_MS` held at this tick. -/
structure ChunkerInput where
  mic : List ℚ
  sys : List ℚ
  timeout_elapsed : Bool

/-- The index-aligned weighted mix of lib.rs 292-298:
`out[i] = mic[i]*0.8 + sys[i]*0.2`, absent samples contributing 0, over
`max` of the two lengths. -/
def mix_samples (mic sys : List ℚ) : List ℚ :=
  (List.range (max mic.length sys.length)).map
    (fun i => mic.getD i 0 * 0.8 + sys.getD i 0 * 0.2)

/-- One iteration of the chunker loop body (lib.rs 274-361) acting on the
accumulated `current_chunk`: append the mixed tick samples, then emit a
chunk when `current_chunk.len() >= CHUNK_SAMPLES = 480000` or
(`>= MIN_CHUNK_SAMPLES = 32000` and the 30 s wall-clock timeout elapsed),
resampling when the source rate differs from 16000. -/
def chunker_step (sample_rate : ℕ) (cc : List ℚ) (inp : ChunkerInput) :
    List ℚ × Option (List ℚ) :=
  let cc2 := cc ++ mix_samples inp.mic inp.sys
  if (480000 ≤ cc2.length ∨ (32000 ≤ cc2.length ∧ inp.timeout_elapsed = true)) ∧
      cc2 ≠ [] then
    (([] : List ℚ),
     some (if sample_rate ≠ 16000 then resample_audio cc2 sample_rate 16000 else cc2))
  else (cc2, none)

/-- Run the chunker over a trace of ticks, collecting the emitted chunks'
sample vectors in order. -/
def chunker_run (sample_rate : ℕ) : List ℚ → List ChunkerInput → List ℚ × List (List ℚ)
  | cc, [] => (cc, [])
  | cc, inp :: rest =>
    let st := chunker_step sample_rate cc inp
    let r := chunker_run sample_rate st.1 rest
    (r.1, st.2.toList ++ r.2)

/-- Length of the resampler output for any positive rates. -/
theorem resample_audio_length (samples : List ℚ) (from_rate to_rate : ℕ)
    (hf : 0 < from_rate) (ht : 0 < to_rate) :
    (resample_audio samples from_rate to_rate).length =
      samples.length * to_rate / from_rate := by
  by_cases h : from_rate = to_rate
  · subst h
    unfold resample_audio
    rw [if_pos rfl]
    rw [Nat.mul_div_cancel _ hf]
  · rw [resample_audio_eq_map samples from_rate to_rate h hf ht]
    simp

/-- Every chunk emitted by `chunker_step` comes from an accumulated buffer
of at least 32000 source-rate samples. -/
theorem chunker_step_emits (sample_rate : ℕ) (hR : 0 < sample_rate) (cc : List ℚ)
    (inp : ChunkerInput) (chunk : List ℚ)
    (h : (chunker_step sample_rate cc inp).2 = some chunk) :
    32000 * 16000 / sample_rate ≤ chunk.length := by
  unfold chunker_step at h
  by_cases hcond : (480000 ≤ (cc ++ mix_samples inp.mic inp.sys).length ∨
      (32000 ≤ (cc ++ mix_samples inp.mic inp.sys).length ∧ inp.timeout_elapsed = true)) ∧
      cc ++ mix_samples inp.mic inp.sys ≠ []
  · rw [if_pos hcond] at h
    have hlen : 32000 ≤ (cc ++ mix_samples inp.mic inp.sys).length := by
      rcases hcond.1 with h1 | h1
      · omega
      · exact h1.1
    have hchunk : chunk = if sample_rate ≠ 16000 then
        resample_audio (cc ++ mix_samples inp.mic inp.sys) sample_rate 16000
      else cc ++ mix_samples inp.mic inp.sys := by
      exact (Option.some_injective _ (by simpa using h)).symm
    rw [hchunk]
    by_cases hs : sample_rate = 16000
    · rw [if_neg (by simp [hs])]
      subst hs
      omega
    · rw [if_pos hs]
      rw [resample_audio_length _ _ _ hR (by norm_num)]
      exact Nat.div_le_div_right (Nat.mul_le_mul_right _ hlen)
  · rw [if_neg hcond] at h
    exact absurd h (by simp)

/-- C3 (amended): for any source rate R > 0 and any trace of received
mic/system frames, every chunk emitted by the chunker has at least
`⌊32000·16000/R⌋` samples (the accumulated buffer always holds at least
`MIN_CHUNK_SAMPLES = 32000` source-rate samples at emission, and
resampling scales that by 16000/R).  No fixed upper bound holds: the
length check happens only after a whole tick's batch is appended, so one
large batch can overshoot `CHUNK_SAMPLES = 480000`; and for R > 16000 the
emitted length can fall below 32000. -/
theorem chunker_chunk_min_length (R : ℕ) (hR : 0 < R) (cc : List ℚ)
    (inputs : List ChunkerInput) (chunk : List ℚ)
    (hmem : chunk ∈ (chunker_run R cc inputs).2) :
    32000 * 16000 / R ≤ chunk.length := by
  induction inputs generalizing cc with
  | nil => simp [chunker_run] at hmem
  | cons inp rest ih =>
    unfold chunker_run at hmem
    rw [List.mem_append] at hmem
    rcases hmem with hm | hm
    · rcases he : (chunker_step R cc inp).2 with _ | ⟨c2⟩
      · rw [he] at hm; simp at hm
      · rw [he] at hm
        simp at hm
        subst hm
        exact chunker_step_emits R hR cc inp _ he
    · exact ih _ hm

/-- The mixed batch of a replicate-only tick has the same length. -/
theorem mix_replicate_length (n : ℕ) :
    (mix_samples (List.replicate n (0 : ℚ)) []).length = n := by
  simp [mix_samples]

/-- A single tick whose batch meets the emission condition emits exactly
one chunk. -/
theorem chunker_single_emit (R n : ℕ) (tout : Bool)
    (hcond : 480000 ≤ n ∨ (32000 ≤ n ∧ tout = true)) :
    (chunker_run R []
        [{ mic := List.replicate n (0 : ℚ), sys := [], timeout_elapsed := tout }]).2 =
      [if R ≠ 16000 then
          resample_audio (mix_samples (List.replicate n (0 : ℚ)) []) R 16000
        else mix_samples (List.replicate n (0 : ℚ)) []] := by
  have hl := mix_replicate_length n
  have hn : 0 < n := by omega
  unfold chunker_run chunker_run chunker_step
  rw [List.nil_append]
  rw [if_pos ⟨by
      rcases hcond with h1 | h1
      · exact Or.inl (by rw [hl]; exact h1)
      · exact Or.inr ⟨by rw [hl]; exact h1.1, h1.2⟩, by
      intro hc
      have hc2 := congrArg List.length hc
      rw [hl] at hc2
      simp at hc2
      omega⟩]
  simp

/-- Counterexample for C3 as stated: at R = 16000, a single tick delivering
480001 mic samples yields an emitted chunk of 480001 samples, above the
claimed upper bound 16000·30 = 480000. -/
theorem chunker_length_cex :
    (mix_samples (List.replicate 480001 (0 : ℚ)) []) ∈
      (chunker_run 16000 []
        [{ mic := List.replicate 480001 (0 : ℚ), sys := [],
           timeout_elapsed := false }]).2 ∧
    ¬ ((mix_samples (List.replicate 480001 (0 : ℚ)) []).length ≤ 16000 * 30) := by
  constructor
  · rw [chunker_single_emit 16000 480001 false (Or.inl (by norm_num))]
    rw [if_neg (by norm_num)]
    exact List.mem_singleton.mpr rfl
  · rw [mix_replicate_length]
    norm_num

/-- Witness for `chunker_chunk_min_length`: at R = 16000 a 32000-sample
batch with the timeout elapsed emits a chunk of exactly the minimum size.
-/
theorem chunker_chunk_min_length_witness :
    32000 * 16000 / 16000 ≤ (mix_samples (List.replicate 32000 (0 : ℚ)) []).length := by
  refine chunker_chunk_min_length 16000 (by norm_num) []
    [{ mic := List.replicate 32000 (0 : ℚ), sys := [], timeout_elapsed := true }] _ ?_
  rw [chunker_single_emit 16000 32000 true (Or.inr ⟨by norm_num, rfl⟩)]
  rw [if_neg (by norm_num)]
  exact List.mem_singleton.mpr rfl

/-! ## Worker pool, error escalation and lifecycle
    (`transcription_worker` lib.rs 428-679, `stop_recording` lib.rs 845-1100,
    `is_recording` lib.rs 1102-1105, `get_transcription_status` lib.rs
    1107-1139).  The process-wide statics become the `Globals` record; each
    worker-loop iteration is driven by a `WorkerStep` carrying the current
    instant and the network outcome for the chunk popped (if any), which
    sequentialises the cooperative scheduling. -/

/-- An `AudioChunk` as seen by a worker (samples are irrelevant past the
transcription call and are omitted; `timestamp` is `chunk_start_time`). -/
structure Chunk where
  chunk_id : ℕ
  timestamp : ℚ
  recording_start : ℚ
deriving DecidableEq

/-- The shared mutable statics of lib.rs 28-44 used by the worker pool and
lifecycle: `RECORDING_FLAG`, `IS_RUNNING`, `AUDIO_CHUNK_QUEUE`,
`ACTIVE_WORKERS`, `ERROR_EVENT_EMITTED`, `SEQUENCE_COUNTER`, and the
error-window statics `ERROR_COUNT` / `LAST_ERROR_TIME` (lib.rs 535-536). -/
structure Globals where
  recording_flag : Bool
  is_running : Option Bool
  audio_chunk_queue : Option (List Chunk)
  active_workers : ℕ
  error_event_emitted : Bool
  seq_counter : ℕ
  error_count : ℕ
  last_error_time : Option ℚ
deriving DecidableEq

/-- Events emitted to the UI sink. -/
inductive Event where
  | transcriptUpdate (u : TranscriptUpdate)
  | transcriptError (msg : String)
  | transcriptionComplete
deriving DecidableEq

/-- How a worker run ended: normal loop exit, early return on error
escalation, or the driving script ran out mid-loop. -/
inductive WorkerStatus
  | finished
  | escalated
  | suspended
deriving DecidableEq

/-- One worker-loop iteration's inputs: the instant `Instant::now()` reads
and the outcome of `send_audio_chunk` for the popped chunk (if one is
popped this iteration). -/
structure WorkerStep where
  now : ℚ
  result : Except String (List TranscriptSegment)

/-- Result of running a worker. -/
structure WorkerResult where
  globals : Globals
  acc : TranscriptAccumulator
  events : List Event
  status : WorkerStatus

/-- The error-message classification of lib.rs 553-559. -/
def classify_error (e : String) : String :=
  if containsSub "Failed to connect".toList e.toList = true ∨
      containsSub "Connection refused".toList e.toList = true then
    "Transcription service is not available. Please check if the server is running."
  else if containsSub "timeout".toList e.toList = true then
    "Transcription service is not responding. Please check your connection."
  else "Transcription service error: " ++ e

/-- The error-window bookkeeping of lib.rs 538-549:
`as_secs() < 30` on the elapsed duration is `now - last < 30000` ms. -/
def bump_error_count (g : Globals) (now : ℚ) : Globals :=
  match g.last_error_time with
  | some lt =>
    if now - lt < 30000 then
      { g with error_count := g.error_count + 1, last_error_time := some now }
    else
      { g with error_count := 1, last_error_time := some now }
  | none => { g with error_count := 1, last_error_time := some now }

/-- The escalation block of lib.rs 551-606: emit `transcript-error` once,
deassert both flags, reset the error window, and tear down the shared
handles (the spawned cleanup task nulls `IS_RUNNING` and the queue). -/
def escalate (g : Globals) (e : String) : Globals × List Event :=
  ({ g with
      error_event_emitted := true
      recording_flag := false
      is_running := none
      audio_chunk_queue := none
      error_count := 0
      last_error_time := none },
   [Event.transcriptError (classify_error e)])

/-- The `for segment in response.segments` loop of lib.rs 513-528: feed
each segment to the accumulator and emit every produced update. -/
def process_segments (acc : TranscriptAccumulator) (seq : ℕ) (now : ℚ) :
    List TranscriptSegment → TranscriptAccumulator × ℕ × List Event
  | [] => (acc, seq, [])
  | seg :: rest =>
    let r := add_segment acc seg now seq
    let k := process_segments r.1 r.2.1 now rest
    (k.1, k.2.1, (r.2.2.toList.map Event.transcriptUpdate) ++ k.2.2)

/-- The loop-exit test of lib.rs 441-465: continue while the running flag
is set or chunks remain; a missing handle reads as false/empty. -/
def loop_should_exit (g : Globals) : Bool :=
  let is_running_b := match g.is_running with | some b => b | none => false
  let queue_has_chunks := match g.audio_chunk_queue with
    | some q => !q.isEmpty
    | none => false
  !is_running_b && !queue_has_chunks

/-- Model of `pop_front` on the shared queue (lib.rs 478-489). -/
def pop_chunk (g : Globals) : Option Chunk × Globals :=
  match g.audio_chunk_queue with
  | some (c :: q2) => (some c, { g with audio_chunk_queue := some q2 })
  | some [] => (none, g)
  | none => (none, g)

/-- The worker loop of lib.rs 441-615, driven by a step script.  Each
iteration: read the exit condition, check the sentence timeout, pop a
chunk, and either process the response segments or run the error path. -/
def worker_loop (g : Globals) (acc : TranscriptAccumulator) :
    List WorkerStep → WorkerResult
  | [] => { globals := g, acc := acc, events := [], status := WorkerStatus.suspended }
  | step :: rest =>
    if loop_should_exit g = true then
      { globals := g, acc := acc, events := [], status := WorkerStatus.finished }
    else
      let t := check_timeout acc step.now g.seq_counter
      let g1 := { g with seq_counter := t.2.1 }
      let evs0 := t.2.2.toList.map Event.transcriptUpdate
      let pr := pop_chunk g1
      match pr.1 with
      | some c =>
        let g2 := pr.2
        let acc1 := set_chunk_context t.1 c.chunk_id c.timestamp c.recording_start
        match step.result with
        | Except.ok segs =>
          let p := process_segments acc1 g2.seq_counter step.now segs
          let g3 := { g2 with seq_counter := p.2.1 }
          let r := worker_loop g3 p.1 rest
          { globals := r.globals, acc := r.acc, events := evs0 ++ p.2.2 ++ r.events,
            status := r.status }
        | Except.error e =>
          let g3 := bump_error_count g2 step.now
          if g3.error_count = 1 ∧ g3.error_event_emitted = false then
            let esc := escalate g3 e
            { globals := esc.1, acc := acc1, events := evs0 ++ esc.2,
              status := WorkerStatus.escalated }
          else
            let r := worker_loop g3 acc1 rest
            { globals := r.globals, acc := r.acc, events := evs0 ++ r.events,
              status := r.status }
      | none =>
        let r := worker_loop pr.2 t.1 rest
        { globals := r.globals, acc := r.acc, events := evs0 ++ r.events,
          status := r.status }

/-- The worker exit path of lib.rs 617-676: final timeout check, flush of
any remaining partial sentence (timestamp without the `.max(0.0)` clamp,
as at lib.rs 633), decrement of `ACTIVE_WORKERS`, and the
`transcription-complete` emission when this was the last worker and the
queue exists and is empty. -/
def worker_epilogue (g : Globals) (acc : TranscriptAccumulator) (t_end : ℚ) :
    Globals × List Event :=
  let t := check_timeout acc t_end g.seq_counter
  let g1 := { g with seq_counter := t.2.1 }
  let evs0 := t.2.2.toList.map Event.transcriptUpdate
  let acc1 := t.1
  let flush :=
    if acc1.current_sentence ≠ [] then
      ({ g1 with seq_counter := g1.seq_counter + 1 },
       [Event.transcriptUpdate
         { text := trimChars acc1.current_sentence
           timestamp := format_timestamp
             (acc1.current_chunk_start_time + acc1.sentence_start_time / 1000)
           source := "Mixed Audio"
           sequence_id := g1.seq_counter
           chunk_start_time := acc1.current_chunk_start_time
           isPartial := true }])
    else (g1, ([] : List Event))
  let g3 := { flush.1 with active_workers := flush.1.active_workers - 1 }
  let complete :=
    if g3.active_workers = 0 ∧ (match g3.audio_chunk_queue with
        | some q => q.isEmpty
        | none => false) = true then
      [Event.transcriptionComplete]
    else ([] : List Event)
  (g3, evs0 ++ flush.2 ++ complete)

/-- Model of `transcription_worker` (lib.rs 428-679): increment `ACTIVE_WORKERS`,
run the loop, and on normal exit run the epilogue.  On the escalation path
the function returns early: no epilogue, no decrement. -/
def transcription_worker (g : Globals) (t0 t_end : ℚ)
    (steps : List WorkerStep) : WorkerResult :=
  let g1 := { g with active_workers := g.active_workers + 1 }
  let r := worker_loop g1 (accumulator_new t0) steps
  if r.status = WorkerStatus.finished then
    let e := worker_epilogue r.globals r.acc t_end
    { globals := e.1, acc := r.acc, events := r.events ++ e.2,
      status := WorkerStatus.finished }
  else r

/-- Model of `is_recording` (lib.rs 1102-1105). -/
def is_recording (g : Globals) : Bool :=
  g.recording_flag

/-- The `TranscriptionStatus` of lib.rs 65-70 (the wall-clock
`last_activity_ms` field is omitted). -/
structure TranscriptionStatus where
  chunks_in_queue : ℕ
  is_processing : Bool
deriving DecidableEq

/-- Model of `get_transcription_status` (lib.rs 1107-1139). -/
def get_transcription_status (g : Globals) : TranscriptionStatus :=
  let chunks_in_queue := match g.audio_chunk_queue with
    | some q => q.length
    | none => 0
  { chunks_in_queue := chunks_in_queue
    is_processing := decide (0 < g.active_workers) || decide (0 < chunks_in_queue) }

/-- Model of `stop_recording` (lib.rs 845-1100) as a state transformer: early return
when the flag is already clear; otherwise clear the flag, and null all
shared handles including `IS_RUNNING` and the queue.  The drain wait
(lib.rs 894-918) only sleeps and reads; concurrent worker progress during
the wait is modelled by composing worker runs before this call.
`ACTIVE_WORKERS` is never written by `stop_recording`. -/
def stop_recording (g : Globals) : Globals :=
  if g.recording_flag = false then g
  else
    { g with
        recording_flag := false
        is_running := none
        audio_chunk_queue := none }

/-- C4 (amended): after `stop_recording` returns, `is_recording()` is
always false; `transcriptionStatus().isProcessing` is false provided
`ACTIVE_WORKERS` is 0 when stop is called on a live session (the normal
drained path).  When a worker leaked the counter (error escalation) or the
drain timed out with workers still counted, `isProcessing` stays true. -/
theorem stop_recording_flags (g : Globals) :
    is_recording (stop_recording g) = false ∧
    (g.active_workers = 0 → g.recording_flag = true →
      (get_transcription_status (stop_recording g)).is_processing = false) := by
  unfold stop_recording is_recording get_transcription_status
  by_cases h : g.recording_flag = false
  · rw [if_pos h]
    exact ⟨h, fun _ hflag => absurd hflag (by rw [h]; exact Bool.false_ne_true)⟩
  · rw [if_neg h]
    refine ⟨rfl, fun hzero _ => ?_⟩
    simp [hzero]

/-- A drained live session state used in the `stop_recording_flags`
witness. -/
def drainedGlobals : Globals :=
  { recording_flag := true
    is_running := some true
    audio_chunk_queue := some []
    active_workers := 0
    error_event_emitted := false
    seq_counter := 3
    error_count := 0
    last_error_time := none }

/-- Witness for `stop_recording_flags` on a drained live session. -/
theorem stop_recording_flags_witness :
    is_recording (stop_recording drainedGlobals) = false ∧
    (drainedGlobals.active_workers = 0 → drainedGlobals.recording_flag = true →
      (get_transcription_status (stop_recording drainedGlobals)).is_processing = false) :=
  stop_recording_flags drainedGlobals

/-- A fresh one-chunk session state used in the lifecycle counterexample. -/
def escGlobals : Globals :=
  { recording_flag := true
    is_running := some true
    audio_chunk_queue := some [{ chunk_id := 0, timestamp := 0, recording_start := 0 }]
    active_workers := 0
    error_event_emitted := false
    seq_counter := 0
    error_count := 0
    last_error_time := none }

/-- The session state after a worker hits a transcription error on the
first chunk and takes the escalation path. -/
def escRun : WorkerResult :=
  transcription_worker escGlobals 0 0
    [{ now := 0, result := Except.error "Connection refused" }]

/-- Counterexample for C4 as stated: after a worker error escalation the
worker exits without decrementing `ACTIVE_WORKERS`; a subsequent
`stop_recording` returns with `is_recording()` false but
`transcriptionStatus().isProcessing` still true. -/
theorem stop_recording_cex :
    escRun.status = WorkerStatus.escalated ∧
    is_recording (stop_recording escRun.globals) = false ∧
    (get_transcription_status (stop_recording escRun.globals)).is_processing = true := by
  refine ⟨?_, ?_, ?_⟩ <;> with_unfolding_all decide

theorem bump_error_count_active (g : Globals) (now : ℚ) :
    (bump_error_count g now).active_workers = g.active_workers := by
  unfold bump_error_count
  rcases g.last_error_time with _ | lt
  · rfl
  · dsimp only
    split <;> rfl

theorem pop_chunk_active (g : Globals) :
    (pop_chunk g).2.active_workers = g.active_workers := by
  unfold pop_chunk
  rcases g.audio_chunk_queue with _ | ⟨_ | ⟨c, q⟩⟩ <;> rfl

/-- The worker loop never touches `ACTIVE_WORKERS`. -/
theorem worker_loop_active (steps : List WorkerStep) :
    ∀ (g : Globals) (acc : TranscriptAccumulator),
      (worker_loop g acc steps).globals.active_workers = g.active_workers := by
  induction steps with
  | nil => intro g acc; rfl
  | cons step rest ih =>
    intro g acc
    unfold worker_loop
    split
    · rfl
    · dsimp only
      split <;> (try split) <;> (try split) <;>
        simp [ih, escalate, bump_error_count_active, pop_chunk_active]

theorem process_segments_no_complete (segs : List TranscriptSegment) :
    ∀ (acc : TranscriptAccumulator) (seq : ℕ) (now : ℚ),
      Event.transcriptionComplete ∉ (process_segments acc seq now segs).2.2 := by
  induction segs with
  | nil => intro acc seq now; simp [process_segments]
  | cons seg rest ih =>
    intro acc seq now
    unfold process_segments
    simp only [List.mem_append, List.mem_map]
    rintro (⟨u, _, hu⟩ | hmem)
    · exact absurd hu (by simp)
    · exact ih _ _ _ hmem

/-- The worker loop never emits `transcription-complete` (only the exit
path does). -/
theorem worker_loop_no_complete (steps : List WorkerStep) :
    ∀ (g : Globals) (acc : TranscriptAccumulator),
      Event.transcriptionComplete ∉ (worker_loop g acc steps).events := by
  induction steps with
  | nil => intro g acc; simp [worker_loop]
  | cons step rest ih =>
    intro g acc
    unfold worker_loop
    split
    · simp
    · dsimp only
      split <;> (try split) <;> (try split) <;>
        simp [ih, escalate, process_segments_no_complete]

/-- On escalation the worker's event trace ends with the `transcript-error`
event: nothing (in particular no partial-sentence flush) follows it. -/
theorem snoc_ext {α : Type} (A : List α) {l pre : List α} {x : α}
    (h : l = pre ++ [x]) : ∃ p, A ++ l = p ++ [x] :=
  ⟨A ++ pre, by rw [h, List.append_assoc]⟩

theorem worker_loop_escalated_events (steps : List WorkerStep) :
    ∀ (g : Globals) (acc : TranscriptAccumulator),
      (worker_loop g acc steps).status = WorkerStatus.escalated →
      ∃ pre m, (worker_loop g acc steps).events = pre ++ [Event.transcriptError m] := by
  induction steps with
  | nil =>
    intro g acc h
    exact absurd h (by simp [worker_loop])
  | cons step rest ih =>
    intro g acc
    unfold worker_loop
    split
    · intro h; exact absurd h (by simp)
    · dsimp only
      split
      · split
        · intro h
          obtain ⟨pre, m, hpre⟩ := ih _ _ h
          obtain ⟨p, hp⟩ := snoc_ext _ hpre
          exact ⟨p, m, hp⟩
        · split
          · intro _
            obtain ⟨p, hp⟩ := snoc_ext
              (List.map Event.transcriptUpdate
                (check_timeout acc step.now g.seq_counter).2.2.toList)
              (show (escalate (bump_error_count (pop_chunk
                  { g with seq_counter := (check_timeout acc step.now g.seq_counter).2.1 }).2
                  step.now) _).2 =
                [] ++ [Event.transcriptError (classify_error _)] from rfl)
            exact ⟨p, _, hp⟩
          · intro h
            obtain ⟨pre, m, hpre⟩ := ih _ _ h
            obtain ⟨p, hp⟩ := snoc_ext _ hpre
            exact ⟨p, m, hp⟩
      · intro h
        obtain ⟨pre, m, hpre⟩ := ih _ _ h
        obtain ⟨p, hp⟩ := snoc_ext _ hpre
        exact ⟨p, m, hp⟩

/-- On escalation the recording flag is cleared and the queue is torn
down. -/
theorem worker_loop_escalated_globals (steps : List WorkerStep) :
    ∀ (g : Globals) (acc : TranscriptAccumulator),
      (worker_loop g acc steps).status = WorkerStatus.escalated →
      (worker_loop g acc steps).globals.recording_flag = false ∧
      (worker_loop g acc steps).globals.audio_chunk_queue = none := by
  induction steps with
  | nil =>
    intro g acc h
    exact absurd h (by simp [worker_loop])
  | cons step rest ih =>
    intro g acc
    unfold worker_loop
    split
    · intro h; exact absurd h (by simp)
    · dsimp only
      split
      · split
        · exact fun h => ih _ _ h
        · split
          · intro _
            exact ⟨rfl, rfl⟩
          · exact fun h => ih _ _ h
      · exact fun h => ih _ _ h

theorem worker_epilogue_active (gl : Globals) (acc : TranscriptAccumulator) (t : ℚ) :
    (worker_epilogue gl acc t).1.active_workers = gl.active_workers - 1 := by
  unfold worker_epilogue
  dsimp only
  split <;> rfl

theorem worker_epilogue_no_complete (gl : Globals) (acc : TranscriptAccumulator)
    (t : ℚ) (h : gl.active_workers - 1 ≠ 0) :
    Event.transcriptionComplete ∉ (worker_epilogue gl acc t).2 := by
  unfold worker_epilogue
  dsimp only
  split
  · split
    · rename_i hc
      exact absurd hc.1 h
    · simp
  · split
    · rename_i hc
      exact absurd hc.1 h
    · simp

/-- A finished worker run restores `ACTIVE_WORKERS` to its entry value and,
when other workers are still counted, does not emit
`transcription-complete`. -/
theorem transcription_worker_finished (g : Globals) (t0 t1 : ℚ)
    (steps : List WorkerStep)
    (h : (transcription_worker g t0 t1 steps).status = WorkerStatus.finished) :
    (transcription_worker g t0 t1 steps).globals.active_workers = g.active_workers ∧
    (1 ≤ g.active_workers →
      Event.transcriptionComplete ∉ (transcription_worker g t0 t1 steps).events) := by
  unfold transcription_worker at h ⊢
  dsimp only at h ⊢
  by_cases hs : (worker_loop { g with active_workers := g.active_workers + 1 }
      (accumulator_new t0) steps).status = WorkerStatus.finished
  · rw [if_pos hs] at h ⊢
    dsimp only at h ⊢
    constructor
    · rw [worker_epilogue_active, worker_loop_active]
      dsimp only
      omega
    · intro hge
      have hact : (worker_loop { g with active_workers := g.active_workers + 1 }
          (accumulator_new t0) steps).globals.active_workers - 1 ≠ 0 := by
        rw [worker_loop_active]
        dsimp only
        omega
      simp only [List.mem_append]
      rintro (hmem | hmem)
      · exact worker_loop_no_complete steps _ _ hmem
      · exact worker_epilogue_no_complete _ _ _ hact hmem
  · rw [if_neg hs] at h
    exact absurd h hs

/-- A worker invocation in the remainder of a session. -/
structure RunSpec where
  t0 : ℚ
  t_end : ℚ
  steps : List WorkerStep

/-- Sequential composition of further worker runs on the shared state. -/
def session_continue (g : Globals) : List RunSpec → Globals × List Event
  | [] => (g, [])
  | r :: rest =>
    let w := transcription_worker g r.t0 r.t_end r.steps
    let s := session_continue w.globals rest
    (s.1, w.events ++ s.2)

/-- All runs in the list exit their loop normally (drain and exit). -/
def all_finished (g : Globals) : List RunSpec → Bool
  | [] => true
  | r :: rest =>
    decide ((transcription_worker g r.t0 r.t_end r.steps).status =
      WorkerStatus.finished) &&
    all_finished (transcription_worker g r.t0 r.t_end r.steps).globals rest

/-- Once a worker has leaked the counter, any sequence of normally-finished
runs keeps `ACTIVE_WORKERS` at its (non-zero) value and never emits
`transcription-complete`. -/
theorem session_continue_leak (runs : List RunSpec) :
    ∀ (g : Globals), 1 ≤ g.active_workers → all_finished g runs = true →
      (session_continue g runs).1.active_workers = g.active_workers ∧
      Event.transcriptionComplete ∉ (session_continue g runs).2 := by
  induction runs with
  | nil =>
    intro g hg hall
    exact ⟨rfl, by simp [session_continue]⟩
  | cons r rest ih =>
    intro g hg hall
    unfold all_finished at hall
    rw [Bool.and_eq_true, decide_eq_true_eq] at hall
    obtain ⟨hfin, hrest⟩ := hall
    obtain ⟨hact, hnc⟩ := transcription_worker_finished g r.t0 r.t_end r.steps hfin
    unfold session_continue
    dsimp only
    obtain ⟨ihact, ihnc⟩ := ih _ (by rw [hact]; exact hg) hrest
    refine ⟨by rw [ihact, hact], ?_⟩
    simp only [List.mem_append]
    rintro (hmem | hmem)
    · exact hnc hg hmem
    · exact ihnc hmem

/-- C10: when a worker takes the error-escalation path it returns without
decrementing `ACTIVE_WORKERS` (the counter stays at entry + 1) and without
flushing its partial sentence (its event trace ends at the
`transcript-error` event); it never emits `transcription-complete` and it
deasserts the recording flag.  Consequently, after any further worker runs
that drain and exit normally, `ACTIVE_WORKERS` never reaches zero,
`transcription-complete` is never emitted, and
`getTranscriptionStatus().isProcessing` remains true. -/
theorem worker_error_escalation_leak (g : Globals) (t0 t1 : ℚ)
    (steps : List WorkerStep)
    (hesc : (transcription_worker g t0 t1 steps).status = WorkerStatus.escalated) :
    (transcription_worker g t0 t1 steps).globals.active_workers =
      g.active_workers + 1 ∧
    (∃ pre m, (transcription_worker g t0 t1 steps).events =
      pre ++ [Event.transcriptError m]) ∧
    Event.transcriptionComplete ∉ (transcription_worker g t0 t1 steps).events ∧
    (transcription_worker g t0 t1 steps).globals.recording_flag = false ∧
    ∀ runs : List RunSpec,
      all_finished (transcription_worker g t0 t1 steps).globals runs = true →
      (session_continue (transcription_worker g t0 t1 steps).globals runs).1.active_workers =
        g.active_workers + 1 ∧
      Event.transcriptionComplete ∉
        (session_continue (transcription_worker g t0 t1 steps).globals runs).2 ∧
      (get_transcription_status
        (session_continue (transcription_worker g t0 t1 steps).globals runs).1).is_processing =
        true := by
  have hworker : transcription_worker g t0 t1 steps =
      worker_loop { g with active_workers := g.active_workers + 1 }
        (accumulator_new t0) steps := by
    unfold transcription_worker at hesc ⊢
    dsimp only at hesc ⊢
    by_cases hs : (worker_loop { g with active_workers := g.active_workers + 1 }
        (accumulator_new t0) steps).status = WorkerStatus.finished
    · rw [if_pos hs] at hesc
      dsimp only at hesc
      exact absurd hesc (by simp)
    · rw [if_neg hs]
  rw [hworker] at hesc ⊢
  have hact : (worker_loop { g with active_workers := g.active_workers + 1 }
      (accumulator_new t0) steps).globals.active_workers = g.active_workers + 1 := by
    rw [worker_loop_active]
  refine ⟨hact, worker_loop_escalated_events steps _ _ hesc,
    worker_loop_no_complete steps _ _,
    (worker_loop_escalated_globals steps _ _ hesc).1, ?_⟩
  intro runs hall
  obtain ⟨hsact, hsnc⟩ := session_continue_leak runs _ (by omega) hall
  refine ⟨by rw [hsact, hact], hsnc, ?_⟩
  unfold get_transcription_status
  dsimp only
  rw [Bool.or_eq_true, decide_eq_true_eq]
  left
  omega

/-- Witness for `worker_error_escalation_leak` at the concrete one-chunk
session whose transcription request fails. -/
theorem worker_error_escalation_leak_witness :
    (transcription_worker escGlobals 0 0
        [{ now := 0, result := Except.error "Connection refused" }]).globals.active_workers =
      escGlobals.active_workers + 1 ∧
    (∃ pre m, (transcription_worker escGlobals 0 0
        [{ now := 0, result := Except.error "Connection refused" }]).events =
      pre ++ [Event.transcriptError m]) ∧
    Event.transcriptionComplete ∉ (transcription_worker escGlobals 0 0
        [{ now := 0, result := Except.error "Connection refused" }]).events ∧
    (transcription_worker escGlobals 0 0
        [{ now := 0, result := Except.error "Connection refused" }]).globals.recording_flag =
      false ∧
    ∀ runs : List RunSpec,
      all_finished (transcription_worker escGlobals 0 0
          [{ now := 0, result := Except.error "Connection refused" }]).globals runs = true →
      (session_continue (transcription_worker escGlobals 0 0
          [{ now := 0, result := Except.error "Connection refused" }]).globals
        runs).1.active_workers = escGlobals.active_workers + 1 ∧
      Event.transcriptionComplete ∉
        (session_continue (transcription_worker escGlobals 0 0
            [{ now := 0, result := Except.error "Connection refused" }]).globals runs).2 ∧
      (get_transcription_status (session_continue (transcription_worker escGlobals 0 0
          [{ now := 0, result := Except.error "Connection refused" }]).globals
        runs).1).is_processing = true :=
  worker_error_escalation_leak escGlobals 0 0
    [{ now := 0, result := Except.error "Connection refused" }]
    (by with_unfolding_all decide)
